import Mathlib

/-!
Verification of the crates.io user model (`src/models/user.rs`).

A shallow embedding of the identity / access-control subsystem:
the `users`, `emails`, `api_tokens` and `crate_owners` tables are lists of
rows, a database connection is explicit state passing, and the external
collaborators (email delivery, team-membership lookup) are oracles carried
in environment records.  Fallible operations return `Except`; the
`transaction` combinator models `conn.transaction` (state is discarded on
error, i.e. rolled back).
-/

deriving instance DecidableEq for Except

/-- A row of the `users` table (struct `User` in `src/models/user.rs`). -/
structure User where
  id : Int
  email : Option String
  gh_access_token : String
  gh_login : String
  name : Option String
  gh_avatar : Option String
  gh_id : Int
deriving DecidableEq, Repr

/-- The candidate identity record (struct `NewUser`). -/
structure NewUser where
  gh_id : Int
  gh_login : String
  email : Option String
  name : Option String
  gh_avatar : Option String
  gh_access_token : String
deriving DecidableEq, Repr

/-- A row of the `emails` table (the fields used by `user.rs`:
`user_id`, `email`, the generated verification `token`, `verified`). -/
structure EmailRow where
  user_id : Int
  email : String
  token : String
  verified : Bool
deriving DecidableEq, Repr

/-- A row of the `api_tokens` table (the columns used by
`find_by_api_token`: `user_id`, `token`, `last_used_at`, `revoked`). -/
structure ApiTokenRow where
  id : Int
  user_id : Int
  name : String
  token : String
  last_used_at : Option Int
  revoked : Bool
deriving DecidableEq, Repr

/-- Owner kind discriminant stored in `crate_owners.owner_kind`
(`OwnerKind::User` / `OwnerKind::Team` from the owner model). -/
inductive OwnerKind where
  | User
  | Team
deriving DecidableEq, Repr

/-- A row of the `crate_owners` table (columns used by `User::owning`). -/
structure CrateOwner where
  crate_id : Int
  owner_id : Int
  deleted : Bool
  owner_kind : OwnerKind
deriving DecidableEq, Repr

/-- A crate; `CrateOwner::belonging_to(krate)` keys on its id. -/
structure Crate where
  id : Int
deriving DecidableEq, Repr

/-- A team; membership is resolved through the external oracle. -/
structure Team where
  id : Int
deriving DecidableEq, Repr

/-- The `Owner` union: a user or a team (enum `Owner` in the owner model). -/
inductive Owner where
  | User (u : User)
  | Team (t : Team)
deriving DecidableEq, Repr

/-- The `Rights` enumeration, ordered `None < Publish < Full`. -/
inductive Rights where
  | None
  | Publish
  | Full
deriving DecidableEq, Repr

/-- Error kinds relevant to these operations.  `NotFound` is diesel's
`NotFound`; `DependencyFailure` stands for an error of an external
dependency (notification channel / membership lookup) surfaced as such. -/
inductive CargoErr where
  | NotFound
  | DependencyFailure
deriving DecidableEq, Repr

/-- The database state: the four tables, fresh-id/fresh-token counters for
rows generated by the store, the transaction clock `now`, and a ghost log
`sent` of invocations of the notification channel. -/
structure DbState where
  users : List User
  emails : List EmailRow
  api_tokens : List ApiTokenRow
  crate_owners : List CrateOwner
  nextUserId : Int
  nextEmailId : Nat
  now : Int
  sent : List (String × String × String)
deriving DecidableEq, Repr

/-- Environment for `create_or_update`: whether
`send_user_confirm_email(email, gh_login, token)` succeeds. -/
structure EmailEnv where
  sendOk : String → String → String → Bool

/-- Environment for `rights`: the external team-membership contract
`is_member(team, user) -> Result<bool, Error>` consumed by
`Team::contains_user`. -/
structure App where
  containsUser : Team → User → Except CargoErr Bool

/-- Method `team.contains_user(app, user)`: delegates to the external oracle. -/
def Team.contains_user (t : Team) (app : App) (u : User) : Except CargoErr Bool :=
  app.containsUser t u

/-- Model of `conn.transaction(|| body)`: on success the body's state is committed,
on error the original state is kept (rollback). -/
def transaction {α : Type} (s : DbState)
    (body : DbState → Except CargoErr (α × DbState)) :
    Except CargoErr α × DbState :=
  match body s with
  | .ok (a, s2) => (.ok a, s2)
  | .error e => (.error e, s)

/-- Plain `INSERT` branch of the upsert: a fresh row with a store-assigned
local id; all fields come from the candidate record. -/
def insertNewUser (nu : NewUser) (s : DbState) : User × DbState :=
  let u : User :=
    { id := s.nextUserId
      email := nu.email
      gh_access_token := nu.gh_access_token
      gh_login := nu.gh_login
      name := nu.name
      gh_avatar := nu.gh_avatar
      gh_id := nu.gh_id }
  (u, { s with users := s.users ++ [u], nextUserId := s.nextUserId + 1 })

/-- The upsert statement of `create_or_update`:
`INSERT ... ON CONFLICT ((gh_id) WHERE gh_id > 0) DO UPDATE SET
gh_login, name, gh_avatar, gh_access_token = excluded(...) RETURNING *`.
A row with non-positive `gh_id` never conflicts; on conflict only the four
mutable columns are overwritten (`id` and `email` keep their stored
values). -/
def upsertUser (nu : NewUser) (s : DbState) : User × DbState :=
  if 0 < nu.gh_id then
    match s.users.find? (fun r => r.gh_id == nu.gh_id) with
    | some ex =>
        let updated : User :=
          { ex with
            gh_login := nu.gh_login
            name := nu.name
            gh_avatar := nu.gh_avatar
            gh_access_token := nu.gh_access_token }
        (updated,
         { s with users := s.users.map (fun r => if r.id == ex.id then updated else r) })
    | none => insertNewUser nu s
  else insertNewUser nu s

/-- The verification token the store generates for a fresh email row. -/
def freshToken (n : Nat) : String := "confirm-" ++ toString n

/-- The email side effect of `create_or_update` (lines 84–102): if the
resulting row carries an address, `INSERT ... ON CONFLICT DO NOTHING
RETURNING token` into `emails` — a no-op when a row for the
(user id, address) pair exists — and, when a row was inserted, invoke
`send_user_confirm_email`; its failure is mapped to `NotFound`
(`.map_err(|_| NotFound)?`). -/
def emailPhase (env : EmailEnv) (user : User) (s : DbState) :
    Except CargoErr DbState :=
  match user.email with
  | none => .ok s
  | some user_email =>
      if s.emails.any (fun e => e.user_id == user.id && e.email == user_email) then
        .ok s
      else
        let tok := freshToken s.nextEmailId
        let s2 : DbState :=
          { s with
            emails := s.emails ++
              [{ user_id := user.id, email := user_email, token := tok
                 verified := false }]
            nextEmailId := s.nextEmailId + 1
            sent := s.sent ++ [(user_email, user.gh_login, tok)] }
        if env.sendOk user_email user.gh_login tok then .ok s2
        else .error CargoErr.NotFound

/-- The body of `create_or_update`'s transaction: the upsert followed by
the email side effect. -/
def createOrUpdateBody (env : EmailEnv) (nu : NewUser) (s : DbState) :
    Except CargoErr (User × DbState) :=
  match emailPhase env (upsertUser nu s).1 (upsertUser nu s).2 with
  | .ok s2 => .ok ((upsertUser nu s).1, s2)
  | .error e => .error e

/-- Function `NewUser::create_or_update`: the transaction wrapping upsert + email
side effect. -/
def NewUser.create_or_update (env : EmailEnv) (nu : NewUser) (s : DbState) :
    Except CargoErr User × DbState :=
  transaction s (createOrUpdateBody env nu)

/-- The filter of `find_by_api_token`:
`token.eq(token_).and(revoked.eq(false))`. -/
def tokenPred (token_ : String) (r : ApiTokenRow) : Bool :=
  r.token == token_ && r.revoked == false

/-- Statement `UPDATE api_tokens SET last_used_at = now WHERE token = _ AND NOT
revoked` part of `find_by_api_token`. -/
def stampTokens (s : DbState) (token_ : String) : DbState :=
  { s with
    api_tokens := s.api_tokens.map
      (fun r => if tokenPred token_ r then { r with last_used_at := some s.now } else r) }

/-- Function `User::find_by_api_token`: update the matching non-revoked credential's
`last_used_at` to `now`, returning its `user_id` (diesel `get_result`
yields `NotFound` when no row matched), then fetch the user with that id. -/
def User.find_by_api_token (s : DbState) (token_ : String) :
    Except CargoErr User × DbState :=
  match s.api_tokens.filter (tokenPred token_) with
  | [] => (.error CargoErr.NotFound, s)
  | t :: _ =>
      let s2 := stampTokens s token_
      match s2.users.find? (fun u => u.id == t.user_id) with
      | some u => (.ok u, s2)
      | none => (.error CargoErr.NotFound, s2)

/-- Function `User::owning`: the non-deleted `crate_owners` rows of the crate with
`owner_kind = OwnerKind::User`, joined to `users`, wrapped as
`Owner::User`. -/
def User.owning (krate : Crate) (s : DbState) : List Owner :=
  ((s.crate_owners.filter
      (fun co => co.crate_id == krate.id && co.deleted == false &&
                 co.owner_kind == OwnerKind.User)).filterMap
    (fun co => (s.users.find? (fun u => u.id == co.owner_id)).map Owner.User))

/-- The scan of `User::rights` with its running `best` accumulator:
a matching user owner short-circuits to `Full`; a team owner raises `best`
to `Publish` when the membership lookup answers `true`, and any lookup
error aborts the whole resolution. -/
def rightsAux (self : User) (app : App) :
    List Owner → Rights → Except CargoErr Rights
  | [], best => .ok best
  | owner :: rest, best =>
      match owner with
      | .User other_user =>
          if other_user.id = self.id then .ok Rights.Full
          else rightsAux self app rest best
      | .Team team =>
          match team.contains_user app self with
          | .error e => .error e
          | .ok b => rightsAux self app rest (if b then Rights.Publish else best)

/-- Function `User::rights`: scan the owner list starting from `Rights::None`. -/
def User.rights (self : User) (app : App) (owners : List Owner) :
    Except CargoErr Rights :=
  rightsAux self app owners Rights.None

/-- Function `User::has_verified_email`: `SELECT EXISTS(... user_id = id AND
verified)`; a read-only query, so the state passes through unchanged. -/
def User.has_verified_email (self : User) (s : DbState) : Bool × DbState :=
  (s.emails.any (fun e => e.user_id == self.id && e.verified), s)

/-! ## Concrete sample data (used by witnesses and counterexamples) -/

/-- A notification channel that always succeeds. -/
def envOk : EmailEnv := ⟨fun _ _ _ => true⟩

/-- A notification channel that always fails. -/
def envFail : EmailEnv := ⟨fun _ _ _ => false⟩

/-- An empty store. -/
def s0W : DbState :=
  { users := []
    emails := []
    api_tokens := []
    crate_owners := []
    nextUserId := 1
    nextEmailId := 0
    now := 100
    sent := [] }

/-- First candidate identity record (external id 5). -/
def u1W : NewUser :=
  { gh_id := 5
    gh_login := "alice"
    email := some "a@x.com"
    name := some "Alice"
    gh_avatar := none
    gh_access_token := "tok1" }

/-- Second candidate record: same external id 5, all mutable fields (and
the address) changed. -/
def u2W : NewUser :=
  { gh_id := 5
    gh_login := "alice2"
    email := some "b@y.com"
    name := none
    gh_avatar := some "av"
    gh_access_token := "tok2" }

/-! ## Helper lemmas -/

theorem find?_append_of_none {α : Type} {p : α → Bool} {l1 l2 : List α}
    (h : l1.find? p = none) : (l1 ++ l2).find? p = l2.find? p := by
  rw [List.find?_append, h, Option.none_or]

theorem map_eq_self_of_fixed {α : Type} {f : α → α} {l : List α}
    (h : ∀ x ∈ l, f x = x) : l.map f = l := by
  induction l with
  | nil => rfl
  | cons a l ih =>
      rw [List.map_cons, h a (List.mem_cons_self a l),
        ih (fun x hx => h x (List.mem_cons_of_mem a hx))]

/-- An `emailPhase` that commits touches only `emails`, `nextEmailId` and
`sent`; the other components of the state pass through unchanged. -/
theorem emailPhase_ok_inv {env : EmailEnv} {u : User} {s s2 : DbState}
    (h : emailPhase env u s = .ok s2) :
    s2.users = s.users ∧ s2.nextUserId = s.nextUserId ∧
    s2.api_tokens = s.api_tokens ∧ s2.crate_owners = s.crate_owners ∧
    s2.now = s.now := by
  unfold emailPhase at h
  split at h
  · injection h with h; subst h; exact ⟨rfl, rfl, rfl, rfl, rfl⟩
  · split at h
    · injection h with h; subst h; exact ⟨rfl, rfl, rfl, rfl, rfl⟩
    · dsimp only at h
      split at h
      · injection h with h; subst h; exact ⟨rfl, rfl, rfl, rfl, rfl⟩
      · exact absurd h (by simp)

/-- Inverting a committed `create_or_update`: the returned row is the
upsert's row, and the email phase committed the final state. -/
theorem create_or_update_ok {env : EmailEnv} {nu : NewUser} {s : DbState}
    {r : User} {s2 : DbState}
    (h : NewUser.create_or_update env nu s = (.ok r, s2)) :
    r = (upsertUser nu s).1 ∧
    emailPhase env (upsertUser nu s).1 (upsertUser nu s).2 = .ok s2 := by
  unfold NewUser.create_or_update transaction createOrUpdateBody at h
  cases he : emailPhase env (upsertUser nu s).1 (upsertUser nu s).2 with
  | ok s3 =>
      rw [he] at h
      dsimp only at h
      simp only [Prod.mk.injEq] at h
      obtain ⟨h1, h2⟩ := h
      injection h1 with h1
      subst h2
      exact ⟨h1.symm, rfl⟩
  | error e =>
      rw [he] at h
      dsimp only at h
      simp only [Prod.mk.injEq] at h
      exact absurd h.1 (by simp)

/-- The upsert takes the plain-insert branch when no stored row carries
the (positive) incoming external id. -/
theorem upsertUser_insert {nu : NewUser} {s : DbState}
    (hpos : 0 < nu.gh_id)
    (hnone : s.users.find? (fun r => r.gh_id == nu.gh_id) = none) :
    upsertUser nu s = insertNewUser nu s := by
  unfold upsertUser
  rw [if_pos hpos, hnone]

/-- The upsert takes the conflict branch when a stored row carries the
(positive) incoming external id: only the four mutable columns change. -/
theorem upsertUser_conflict {nu : NewUser} {s : DbState} {ex : User}
    (hpos : 0 < nu.gh_id)
    (hex : s.users.find? (fun r => r.gh_id == nu.gh_id) = some ex) :
    upsertUser nu s =
      ({ ex with gh_login := nu.gh_login, name := nu.name, gh_avatar := nu.gh_avatar, gh_access_token := nu.gh_access_token },
       { s with users := s.users.map (fun r =>
          if r.id == ex.id then
            { ex with gh_login := nu.gh_login, name := nu.name, gh_avatar := nu.gh_avatar, gh_access_token := nu.gh_access_token }
          else r) }) := by
  unfold upsertUser
  rw [if_pos hpos, hex]

/-- Email phase, no-op branch: a row for the (user id, address) pair
already exists, so nothing is inserted and nothing is sent. -/
theorem emailPhase_existing {env : EmailEnv} {u : User} {s : DbState} {a : String}
    (hm : u.email = some a)
    (hex : s.emails.any (fun e => e.user_id == u.id && e.email == a) = true) :
    emailPhase env u s = .ok s := by
  unfold emailPhase
  rw [hm]
  dsimp only
  rw [if_pos hex]

/-- Email phase, insert branch with a working channel: a fresh row and one
notification are added. -/
theorem emailPhase_insert {env : EmailEnv} {u : User} {s s2 : DbState} {a : String}
    (hm : u.email = some a)
    (hnot : s.emails.any (fun e => e.user_id == u.id && e.email == a) = false)
    (h : emailPhase env u s = .ok s2) :
    s2 = { s with
            emails := s.emails ++ [{ user_id := u.id, email := a, token := freshToken s.nextEmailId, verified := false }]
            nextEmailId := s.nextEmailId + 1
            sent := s.sent ++ [(a, u.gh_login, freshToken s.nextEmailId)] } ∧
    env.sendOk a u.gh_login (freshToken s.nextEmailId) = true := by
  unfold emailPhase at h
  rw [hm] at h
  dsimp only at h
  rw [if_neg (by simp [hnot])] at h
  by_cases hs : env.sendOk a u.gh_login (freshToken s.nextEmailId) = true
  · rw [if_pos hs] at h
    injection h with h
    exact ⟨h.symm, hs⟩
  · rw [if_neg hs] at h
    exact absurd h (by simp)

/-- Email phase, insert branch with a failing channel: the error is the
remapped `NotFound`. -/
theorem emailPhase_send_fail {env : EmailEnv} {u : User} {s : DbState} {a : String}
    (hm : u.email = some a)
    (hnot : s.emails.any (fun e => e.user_id == u.id && e.email == a) = false)
    (hfail : env.sendOk a u.gh_login (freshToken s.nextEmailId) = false) :
    emailPhase env u s = .error CargoErr.NotFound := by
  unfold emailPhase
  rw [hm]
  dsimp only
  rw [if_neg (by simp [hnot]), if_neg (by simp [hfail])]

/-! ## C1: upsert idempotence and conflict behaviour -/

/-- C1: for a candidate record with a positive external id, calling
`create_or_update` twice with the same positive `gh_id` and varying
mutable fields leaves exactly one stored row with that external id; it is
the second call's result, which overwrites only the handle, name, avatar
and access credential of the first call's row, preserving the local id
and the stored address. -/
theorem create_or_update_upsert_idempotent
    (env : EmailEnv) (s0 : DbState) (u1 u2 : NewUser)
    (r1 r2 : User) (s1 s2 : DbState)
    (hpos : 0 < u1.gh_id) (hgid : u2.gh_id = u1.gh_id)
    (hfresh : ∀ r ∈ s0.users, r.gh_id ≠ u1.gh_id)
    (hfid : ∀ r ∈ s0.users, r.id ≠ s0.nextUserId)
    (h1 : NewUser.create_or_update env u1 s0 = (.ok r1, s1))
    (h2 : NewUser.create_or_update env u2 s1 = (.ok r2, s2)) :
    s2.users.filter (fun r => r.gh_id == u1.gh_id) = [r2] ∧
    r2 = { r1 with gh_login := u2.gh_login, name := u2.name, gh_avatar := u2.gh_avatar, gh_access_token := u2.gh_access_token } ∧
    r2.id = r1.id ∧ r2.email = u1.email := by
  obtain ⟨hr1, he1⟩ := create_or_update_ok h1
  obtain ⟨hr2, he2⟩ := create_or_update_ok h2
  have hnone1 : s0.users.find? (fun r => r.gh_id == u1.gh_id) = none := by
    rw [List.find?_eq_none]
    intro x hx
    simpa using hfresh x hx
  have hup1 : upsertUser u1 s0 = insertNewUser u1 s0 := upsertUser_insert hpos hnone1
  set n1 : User :=
    { id := s0.nextUserId, email := u1.email, gh_access_token := u1.gh_access_token, gh_login := u1.gh_login, name := u1.name, gh_avatar := u1.gh_avatar, gh_id := u1.gh_id } with hn1
  have hins : insertNewUser u1 s0 = (n1, { s0 with users := s0.users ++ [n1], nextUserId := s0.nextUserId + 1 }) := rfl
  have hr1n : r1 = n1 := by rw [hr1, hup1, hins]
  have husers1 : s1.users = s0.users ++ [n1] := by
    have := (emailPhase_ok_inv he1).1
    rw [hup1, hins] at this
    simpa using this
  have hpos2 : 0 < u2.gh_id := by rw [hgid]; exact hpos
  have hfind2 : s1.users.find? (fun r => r.gh_id == u2.gh_id) = some n1 := by
    rw [husers1]
    rw [find?_append_of_none (by
      rw [List.find?_eq_none]
      intro x hx
      simp [hgid]
      exact hfresh x hx)]
    simp [List.find?, hgid]
  set upd : User := { n1 with gh_login := u2.gh_login, name := u2.name, gh_avatar := u2.gh_avatar, gh_access_token := u2.gh_access_token } with hupd
  have hup2 := upsertUser_conflict hpos2 hfind2
  have hr2u : r2 = upd := by rw [hr2, hup2]
  have husers2 : s2.users = s0.users ++ [upd] := by
    have := (emailPhase_ok_inv he2).1
    rw [hup2] at this
    dsimp only at this
    rw [husers1, List.map_append] at this
    rw [this]
    congr 1
    · apply map_eq_self_of_fixed
      intro x hx
      rw [if_neg (by simp; exact hfid x hx)]
    · simp [List.map]
  refine ⟨?_, ?_, ?_, ?_⟩
  · rw [husers2, List.filter_append]
    rw [List.filter_eq_nil_iff.mpr (fun r hr => by simpa using hfresh r hr)]
    simp [hr2u, List.filter, hgid]
  · rw [hr2u, hr1n]
  · rw [hr2u, hr1n]
  · rw [hr2u]

/-- The row returned by the first sample call. -/
def r1W : User :=
  { id := 1
    email := some "a@x.com"
    gh_access_token := "tok1"
    gh_login := "alice"
    name := some "Alice"
    gh_avatar := none
    gh_id := 5 }

/-- The store after the first sample call. -/
def s1W : DbState :=
  { users := [r1W]
    emails := [{ user_id := 1, email := "a@x.com", token := "confirm-0", verified := false }]
    api_tokens := []
    crate_owners := []
    nextUserId := 2
    nextEmailId := 1
    now := 100
    sent := [("a@x.com", "alice", "confirm-0")] }

/-- The row returned by the second sample call: same local id and stored
address, mutable fields from the second candidate record. -/
def r2W : User :=
  { id := 1
    email := some "a@x.com"
    gh_access_token := "tok2"
    gh_login := "alice2"
    name := none
    gh_avatar := some "av"
    gh_id := 5 }

/-- The store after the second sample call. -/
def s2W : DbState := { s1W with users := [r2W] }

theorem create_or_update_upsert_idempotent_witness :
    s2W.users.filter (fun r => r.gh_id == u1W.gh_id) = [r2W] ∧
    r2W = { r1W with gh_login := u2W.gh_login, name := u2W.name, gh_avatar := u2W.gh_avatar, gh_access_token := u2W.gh_access_token } ∧
    r2W.id = r1W.id ∧ r2W.email = u1W.email :=
  create_or_update_upsert_idempotent envOk s0W u1W u2W r1W r2W s1W s2W
    (by decide) (by decide) (by decide) (by decide) (by decide) (by decide)
/-- C2: when a `create_or_update` call results in a row with a
non-empty address, an `Email` record for (user id, address) is created
only if none exists.  Two calls with the same positive external id and
address leave exactly one `Email` record for that pair and exactly one
notification in total: the second call (whose row keeps the stored
address) inserts no record and sends nothing. -/
theorem create_or_update_email_insert_if_absent
    (env : EmailEnv) (s0 : DbState) (u1 u2 : NewUser) (a : String)
    (r1 r2 : User) (s1 s2 : DbState)
    (hpos : 0 < u1.gh_id) (hgid : u2.gh_id = u1.gh_id)
    (hmail : u1.email = some a)
    (hfresh : ∀ r ∈ s0.users, r.gh_id ≠ u1.gh_id)
    (hemail0 : ∀ e ∈ s0.emails, e.user_id ≠ s0.nextUserId)
    (h1 : NewUser.create_or_update env u1 s0 = (.ok r1, s1))
    (h2 : NewUser.create_or_update env u2 s1 = (.ok r2, s2)) :
    (s2.emails.filter (fun e => e.user_id == r1.id && e.email == a)).length = 1 ∧
    s2.sent.length = s0.sent.length + 1 ∧
    s2.emails = s1.emails ∧ s2.sent = s1.sent := by
  obtain ⟨hr1, he1⟩ := create_or_update_ok h1
  obtain ⟨hr2, he2⟩ := create_or_update_ok h2
  have hnone1 : s0.users.find? (fun r => r.gh_id == u1.gh_id) = none := by
    rw [List.find?_eq_none]
    intro x hx
    simpa using hfresh x hx
  have hup1 : upsertUser u1 s0 = insertNewUser u1 s0 := upsertUser_insert hpos hnone1
  set n1 : User :=
    { id := s0.nextUserId, email := u1.email, gh_access_token := u1.gh_access_token, gh_login := u1.gh_login, name := u1.name, gh_avatar := u1.gh_avatar, gh_id := u1.gh_id } with hn1
  have hins : insertNewUser u1 s0 = (n1, { s0 with users := s0.users ++ [n1], nextUserId := s0.nextUserId + 1 }) := rfl
  have hr1n : r1 = n1 := by rw [hr1, hup1, hins]
  rw [hup1, hins] at he1
  -- the email phase of the first call inserts a fresh record
  set row : EmailRow := { user_id := n1.id, email := a, token := freshToken s0.nextEmailId, verified := false } with hrow
  have hnot1 : ({ s0 with users := s0.users ++ [n1], nextUserId := s0.nextUserId + 1 } : DbState).emails.any
      (fun e => e.user_id == n1.id && e.email == a) = false := by
    rw [List.any_eq_false]
    intro e he
    simp only [DbState.emails] at he
    simp
    intro hid
    exact absurd hid (hemail0 e he)
  obtain ⟨hs1, hsend⟩ := emailPhase_insert (by simp [hn1, hmail]) hnot1 he1
  have hs1e : s1.emails = s0.emails ++ [row] := by rw [hs1]
  have hs1sent : s1.sent = s0.sent ++ [(a, n1.gh_login, freshToken s0.nextEmailId)] := by rw [hs1]
  have hs1users : s1.users = s0.users ++ [n1] := by rw [hs1]
  -- second call: conflict, then the email phase is a no-op
  have hpos2 : 0 < u2.gh_id := by rw [hgid]; exact hpos
  have hfind2 : s1.users.find? (fun r => r.gh_id == u2.gh_id) = some n1 := by
    rw [hs1users]
    rw [find?_append_of_none (by
      rw [List.find?_eq_none]
      intro x hx
      simp [hgid]
      exact hfresh x hx)]
    simp [List.find?, hgid]
  set upd : User := { n1 with gh_login := u2.gh_login, name := u2.name, gh_avatar := u2.gh_avatar, gh_access_token := u2.gh_access_token } with hupd
  have hup2 := upsertUser_conflict hpos2 hfind2
  rw [hup2] at he2
  have hex2 : ({ s1 with users := s1.users.map (fun r => if r.id == n1.id then upd else r) } : DbState).emails.any
      (fun e => e.user_id == upd.id && e.email == a) = true := by
    rw [List.any_eq_true]
    refine ⟨row, ?_, by simp [hrow, hupd]⟩
    simp only [DbState.emails]
    rw [hs1e]
    simp
  have hnoop := @emailPhase_existing env _ _ _ (by simp [hupd, hn1, hmail]) hex2
  rw [hnoop] at he2
  injection he2 with he2
  have hs2e : s2.emails = s1.emails := by rw [← he2]
  have hs2sent : s2.sent = s1.sent := by rw [← he2]
  refine ⟨?_, ?_, hs2e, hs2sent⟩
  · rw [hs2e, hs1e, List.filter_append]
    rw [List.filter_eq_nil_iff.mpr (fun e he => by
      simp [hr1n]
      intro hid
      exact absurd hid (hemail0 e he))]
    simp [List.filter, hrow, hr1n]
  · rw [hs2sent, hs1sent]
    simp

theorem create_or_update_email_insert_if_absent_witness :
    (s2W.emails.filter (fun e => e.user_id == r1W.id && e.email == "a@x.com")).length = 1 ∧
    s2W.sent.length = s0W.sent.length + 1 ∧
    s2W.emails = s1W.emails ∧ s2W.sent = s1W.sent :=
  create_or_update_email_insert_if_absent envOk s0W u1W u2W "a@x.com" r1W r2W s1W s2W
    (by decide) (by decide) (by decide) (by decide) (by decide) (by decide) (by decide)

/-! ## C3 / C8: behaviour when the notification channel fails -/

/-- C3: when the upsert's resulting row carries an address, no `Email`
record for (row id, address) exists yet (so a new one is created inside
the transaction), and the synchronous send fails, the whole
`create_or_update` returns an error and the final state is exactly the
original one: neither the user upsert nor the email insert is
committed. -/
theorem create_or_update_rolls_back_on_send_failure
    (env : EmailEnv) (nu : NewUser) (s : DbState) (a : String)
    (hm : ((upsertUser nu s).1).email = some a)
    (hnot : ((upsertUser nu s).2).emails.any
      (fun e => e.user_id == (upsertUser nu s).1.id && e.email == a) = false)
    (hfail : env.sendOk a ((upsertUser nu s).1).gh_login
      (freshToken ((upsertUser nu s).2).nextEmailId) = false) :
    NewUser.create_or_update env nu s = (.error CargoErr.NotFound, s) := by
  have he := emailPhase_send_fail hm hnot hfail
  unfold NewUser.create_or_update transaction createOrUpdateBody
  rw [he]

theorem create_or_update_rolls_back_on_send_failure_witness :
    NewUser.create_or_update envFail u1W s0W = (.error CargoErr.NotFound, s0W) :=
  create_or_update_rolls_back_on_send_failure envFail u1W s0W "a@x.com"
    (by decide) (by decide) (by decide)

/-- C8, counterexample: at a concrete input whose send fails inside
`create_or_update`, the surfaced error is `NotFound` — not of the
`DependencyFailure` kind: the code remaps the channel error with
`.map_err(|_| NotFound)`. -/
theorem send_failure_error_kind_cex :
    (NewUser.create_or_update envFail u1W s0W).1 = .error CargoErr.NotFound ∧
    (NewUser.create_or_update envFail u1W s0W).1 ≠ .error CargoErr.DependencyFailure := by
  decide

/-- C8, amended: when the send-verification-email call fails inside
`create_or_update` (fresh record, failing channel), the error surfaced to
the caller is the `NotFound` kind — the notification failure still aborts
the operation, but its kind is downgraded to not-found. -/
theorem send_failure_surfaces_notfound
    (env : EmailEnv) (nu : NewUser) (s : DbState) (a : String)
    (hm : ((upsertUser nu s).1).email = some a)
    (hnot : ((upsertUser nu s).2).emails.any
      (fun e => e.user_id == (upsertUser nu s).1.id && e.email == a) = false)
    (hfail : env.sendOk a ((upsertUser nu s).1).gh_login
      (freshToken ((upsertUser nu s).2).nextEmailId) = false) :
    (NewUser.create_or_update env nu s).1 = .error CargoErr.NotFound := by
  have he := emailPhase_send_fail hm hnot hfail
  unfold NewUser.create_or_update transaction createOrUpdateBody
  rw [he]

theorem send_failure_surfaces_notfound_witness :
    (NewUser.create_or_update envFail u2W s0W).1 = .error CargoErr.NotFound :=
  send_failure_surfaces_notfound envFail u2W s0W "b@y.com"
    (by decide) (by decide) (by decide)

/-! ## C5–C7: rights resolution -/
/-- Predicate: this owner is a user owner whose id matches the actor. -/
def isMatchingUser (self : User) (o : Owner) : Bool :=
  match o with
  | .User u => u.id == self.id
  | .Team _ => false

/-- Predicate, relative to a membership valuation: this owner is a team
the actor belongs to. -/
def isMemberTeam (mem : Team → Bool) (o : Owner) : Bool :=
  match o with
  | .User _ => false
  | .Team t => mem t

theorem rightsAux_spec (self : User) (app : App) (mem : Team → Bool) :
    ∀ (owners : List Owner) (best : Rights),
    (∀ t, Owner.Team t ∈ owners → app.containsUser t self = .ok (mem t)) →
    rightsAux self app owners best =
      .ok (if owners.any (isMatchingUser self) then Rights.Full
           else if owners.any (isMemberTeam mem) then Rights.Publish
           else best) := by
  intro owners
  induction owners with
  | nil => intro best h; simp [rightsAux]
  | cons o rest ih =>
      intro best h
      cases o with
      | User u =>
          by_cases hu : u.id = self.id
          · simp [rightsAux, hu, isMatchingUser]
          · rw [rightsAux]
            rw [if_neg hu]
            rw [ih best (fun t ht => h t (List.mem_cons_of_mem _ ht))]
            simp [isMatchingUser, isMemberTeam, hu]
      | Team t =>
          have hc : t.contains_user app self = .ok (mem t) :=
            h t (List.mem_cons_self _ _)
          rw [rightsAux]
          rw [hc]
          dsimp only
          rw [ih _ (fun t2 ht => h t2 (List.mem_cons_of_mem _ ht))]
          by_cases hm : mem t
          · simp [isMatchingUser, isMemberTeam, hm]
          · simp [isMatchingUser, isMemberTeam, hm]

theorem any_matching_user_iff {self : User} {owners : List Owner} :
    owners.any (isMatchingUser self) = true ↔
    ∃ u, Owner.User u ∈ owners ∧ u.id = self.id := by
  rw [List.any_eq_true]
  constructor
  · rintro ⟨o, ho, hp⟩
    cases o with
    | User u => exact ⟨u, ho, by simpa [isMatchingUser] using hp⟩
    | Team t => simp [isMatchingUser] at hp
  · rintro ⟨u, hu, he⟩
    exact ⟨Owner.User u, hu, by simp [isMatchingUser, he]⟩

theorem any_member_team_iff {mem : Team → Bool} {owners : List Owner} :
    owners.any (isMemberTeam mem) = true ↔
    ∃ t, Owner.Team t ∈ owners ∧ mem t = true := by
  rw [List.any_eq_true]
  constructor
  · rintro ⟨o, ho, hp⟩
    cases o with
    | User u => simp [isMemberTeam] at hp
    | Team t => exact ⟨t, ho, by simpa [isMemberTeam] using hp⟩
  · rintro ⟨t, ht, hm⟩
    exact ⟨Owner.Team t, ht, by simp [isMemberTeam, hm]⟩

/-- C5: with a membership oracle that answers (without failing) on
every team in the list, `rights` returns `Full` whenever a user owner with
the actor's id is present (regardless of team memberships), `Publish` when
no such user owner exists but the actor is a member of at least one team
owner, and `None` for the empty list or when neither condition holds. -/
theorem rights_resolution_spec
    (self : User) (app : App) (mem : Team → Bool) (owners : List Owner)
    (h : ∀ t, Owner.Team t ∈ owners → app.containsUser t self = .ok (mem t)) :
    ((∃ u, Owner.User u ∈ owners ∧ u.id = self.id) →
        User.rights self app owners = .ok Rights.Full) ∧
    ((¬ ∃ u, Owner.User u ∈ owners ∧ u.id = self.id) →
      (∃ t, Owner.Team t ∈ owners ∧ mem t = true) →
        User.rights self app owners = .ok Rights.Publish) ∧
    ((¬ ∃ u, Owner.User u ∈ owners ∧ u.id = self.id) →
      (¬ ∃ t, Owner.Team t ∈ owners ∧ mem t = true) →
        User.rights self app owners = .ok Rights.None) ∧
    User.rights self app [] = .ok Rights.None := by
  have hs : User.rights self app owners =
      .ok (if owners.any (isMatchingUser self) then Rights.Full
           else if owners.any (isMemberTeam mem) then Rights.Publish
           else Rights.None) := by
    unfold User.rights
    exact rightsAux_spec self app mem owners Rights.None h
  refine ⟨?_, ?_, ?_, by unfold User.rights; rw [rightsAux]⟩
  · intro hu
    rw [hs, if_pos (any_matching_user_iff.mpr hu)]
  · intro hu ht
    rw [hs, if_neg (by rw [← any_matching_user_iff] at hu; simpa using hu),
        if_pos (any_member_team_iff.mpr ht)]
  · intro hu ht
    rw [hs, if_neg (by rw [← any_matching_user_iff] at hu; simpa using hu),
        if_neg (by rw [← any_member_team_iff] at ht; simpa using ht)]

/-- A sample actor. -/
def userA : User :=
  { id := 1
    email := none
    gh_access_token := "t"
    gh_login := "alice"
    name := none
    gh_avatar := none
    gh_id := 10 }

/-- A sample non-matching owner. -/
def userB : User := { userA with id := 2, gh_login := "bob", gh_id := 11 }

/-- Sample teams. -/
def teamT : Team := { id := 7 }

def teamS : Team := { id := 3 }

/-- Oracle answering that the actor is a member of every team. -/
def appTrue : App := ⟨fun _ _ => .ok true⟩

/-- Oracle whose membership lookups always fail. -/
def appErr : App := ⟨fun _ _ => .error CargoErr.DependencyFailure⟩

/-- Oracle failing on team 7, answering non-member elsewhere. -/
def appMix : App :=
  ⟨fun tm _ => if tm.id == 7 then .error CargoErr.DependencyFailure else .ok false⟩

/-- Membership valuation used with `appTrue`. -/
def memAll : Team → Bool := fun _ => true

theorem rights_resolution_spec_witness :
    ((∃ u, Owner.User u ∈ [Owner.User userA, Owner.Team teamT] ∧ u.id = userA.id) →
        User.rights userA appTrue [Owner.User userA, Owner.Team teamT] = .ok Rights.Full) ∧
    ((¬ ∃ u, Owner.User u ∈ [Owner.User userA, Owner.Team teamT] ∧ u.id = userA.id) →
      (∃ t, Owner.Team t ∈ [Owner.User userA, Owner.Team teamT] ∧ memAll t = true) →
        User.rights userA appTrue [Owner.User userA, Owner.Team teamT] = .ok Rights.Publish) ∧
    ((¬ ∃ u, Owner.User u ∈ [Owner.User userA, Owner.Team teamT] ∧ u.id = userA.id) →
      (¬ ∃ t, Owner.Team t ∈ [Owner.User userA, Owner.Team teamT] ∧ memAll t = true) →
        User.rights userA appTrue [Owner.User userA, Owner.Team teamT] = .ok Rights.None) ∧
    User.rights userA appTrue [] = .ok Rights.None :=
  rights_resolution_spec userA appTrue memAll [Owner.User userA, Owner.Team teamT]
    (by intro t ht; simp at ht; subst ht; rfl)

/-- C6, counterexample: with a failing membership oracle, two owner
lists that are permutations of each other resolve differently: the order
`[user, team]` short-circuits to `Full` before the failing lookup, while
`[team, user]` hits the lookup first and surfaces its error. -/
theorem rights_perm_error_cex :
    ([Owner.User userA, Owner.Team teamT].Perm [Owner.Team teamT, Owner.User userA]) ∧
    User.rights userA appErr [Owner.User userA, Owner.Team teamT] ≠
      User.rights userA appErr [Owner.Team teamT, Owner.User userA] :=
  ⟨List.Perm.swap _ _ _, by decide⟩

/-- C6, amended: when the membership oracle answers (without failing)
on every team in the list, `rights` produces identical results on any two
owner lists that are permutations of each other. -/
theorem rights_perm_invariant_of_ok_oracle
    (self : User) (app : App) (mem : Team → Bool) (l1 l2 : List Owner)
    (hp : l1.Perm l2)
    (h : ∀ t, Owner.Team t ∈ l1 → app.containsUser t self = .ok (mem t)) :
    User.rights self app l1 = User.rights self app l2 := by
  have h2 : ∀ t, Owner.Team t ∈ l2 → app.containsUser t self = .ok (mem t) :=
    fun t ht => h t (hp.mem_iff.mpr ht)
  have e1 := rightsAux_spec self app mem l1 Rights.None h
  have e2 := rightsAux_spec self app mem l2 Rights.None h2
  unfold User.rights
  rw [e1, e2]
  have ha : ∀ p : Owner → Bool, l1.any p = l2.any p := by
    intro p
    cases hb : l2.any p with
    | true =>
        rw [List.any_eq_true] at hb ⊢
        obtain ⟨x, hx, hpx⟩ := hb
        exact ⟨x, hp.mem_iff.mpr hx, hpx⟩
    | false =>
        rw [List.any_eq_false] at hb ⊢
        intro x hx
        exact hb x (hp.mem_iff.mp hx)
  rw [ha (isMatchingUser self), ha (isMemberTeam mem)]

theorem rights_perm_invariant_of_ok_oracle_witness :
    User.rights userA appTrue [Owner.User userA, Owner.Team teamT] =
      User.rights userA appTrue [Owner.Team teamT, Owner.User userA] :=
  rights_perm_invariant_of_ok_oracle userA appTrue memAll
    [Owner.User userA, Owner.Team teamT] [Owner.Team teamT, Owner.User userA]
    (List.Perm.swap _ _ _)
    (by intro t ht; simp at ht; subst ht; rfl)

/-- Error propagation through the scan, generalized over the accumulator:
once the scan reaches a failing team lookup (no earlier short-circuit, all
earlier lookups answered), the whole resolution returns that error. -/
theorem rightsAux_error_propagates (self : User) (app : App) (t : Team) (e : CargoErr)
    (ht : app.containsUser t self = .error e) :
    ∀ (pre : List Owner), (∀ u, Owner.User u ∈ pre → u.id ≠ self.id) →
    (∀ t2, Owner.Team t2 ∈ pre → ∃ b, app.containsUser t2 self = .ok b) →
    ∀ (post : List Owner) (best : Rights),
    rightsAux self app (pre ++ Owner.Team t :: post) best = .error e := by
  intro pre
  induction pre with
  | nil =>
      intro _ _ post best
      rw [List.nil_append, rightsAux,
        show t.contains_user app self = .error e from ht]
  | cons o rest ih =>
      intro hu ht2 post best
      cases o with
      | User u =>
          rw [List.cons_append, rightsAux,
            if_neg (hu u (List.mem_cons_self _ _))]
          exact ih (fun v hv => hu v (List.mem_cons_of_mem _ hv))
            (fun v hv => ht2 v (List.mem_cons_of_mem _ hv)) post best
      | Team t2 =>
          obtain ⟨b, hb⟩ := ht2 t2 (List.mem_cons_self _ _)
          rw [List.cons_append, rightsAux,
            show t2.contains_user app self = .ok b from hb]
          dsimp only
          exact ih (fun v hv => hu v (List.mem_cons_of_mem _ hv))
            (fun v hv => ht2 v (List.mem_cons_of_mem _ hv)) post _

/-- C7: if the scan of `rights` reaches a team whose membership lookup
fails (every earlier user owner is a non-match, every earlier team lookup
answered), the whole resolution returns that lookup's error — the failure
is never treated as "not a member" and no `Rights` value is produced by
skipping it. -/
theorem rights_propagates_lookup_error
    (self : User) (app : App) (pre post : List Owner) (t : Team) (e : CargoErr)
    (hpre_user : ∀ u, Owner.User u ∈ pre → u.id ≠ self.id)
    (hpre_team : ∀ t2, Owner.Team t2 ∈ pre → ∃ b, app.containsUser t2 self = .ok b)
    (ht : app.containsUser t self = .error e) :
    User.rights self app (pre ++ Owner.Team t :: post) = .error e := by
  unfold User.rights
  exact rightsAux_error_propagates self app t e ht pre hpre_user hpre_team post Rights.None

theorem rights_propagates_lookup_error_witness :
    User.rights userA appMix
      ([Owner.User userB, Owner.Team teamS] ++ Owner.Team teamT :: [Owner.User userA]) =
      .error CargoErr.DependencyFailure :=
  rights_propagates_lookup_error userA appMix
    [Owner.User userB, Owner.Team teamS] [Owner.User userA] teamT CargoErr.DependencyFailure
    (by intro u hu; simp at hu; subst hu; decide)
    (by intro t2 h2; simp at h2; subst h2; exact ⟨false, rfl⟩)
    (by decide)

/-! ## C4: token authentication -/

/-- C4: `find_by_api_token` fails with not-found when no non-revoked
credential exactly matches the token (in particular when every matching
credential is revoked); on a match it returns the user whose id is the
credential's `user_id` and, in the same lookup, stamps every matching
non-revoked credential's `last_used_at` to the current time (so a null
last-used timestamp becomes non-null after one authentication). -/
theorem find_by_api_token_spec (s : DbState) (token_ : String) :
    ((∀ r ∈ s.api_tokens, r.token = token_ → r.revoked = true) →
      User.find_by_api_token s token_ = (.error CargoErr.NotFound, s)) ∧
    (∀ t rest u, s.api_tokens.filter (tokenPred token_) = t :: rest →
      (stampTokens s token_).users.find? (fun v => v.id == t.user_id) = some u →
      User.find_by_api_token s token_ = (.ok u, stampTokens s token_) ∧
      u.id = t.user_id ∧
      ∀ r ∈ (stampTokens s token_).api_tokens, r.token = token_ → r.revoked = false →
        r.last_used_at = some s.now) := by
  constructor
  · intro hall
    have hf : s.api_tokens.filter (tokenPred token_) = [] := by
      rw [List.filter_eq_nil_iff]
      intro r hr
      simp only [tokenPred, Bool.and_eq_true, beq_iff_eq, not_and]
      intro htk
      rw [hall r hr htk]
      simp
    unfold User.find_by_api_token
    rw [hf]
  · intro t rest u hfil hfind
    unfold User.find_by_api_token
    rw [hfil]
    dsimp only
    rw [hfind]
    refine ⟨rfl, ?_, ?_⟩
    · simpa using List.find?_some hfind
    · intro r hr htk hrv
      unfold stampTokens at hr
      dsimp only at hr
      rw [List.mem_map] at hr
      obtain ⟨r0, hr0, hfr⟩ := hr
      by_cases hp : tokenPred token_ r0 = true
      · rw [if_pos hp] at hfr
        rw [← hfr]
      · rw [if_neg hp] at hfr
        subst hfr
        exact absurd (by simp [tokenPred, htk, hrv]) hp

/-- A store with one revoked and one active credential for the sample
actor. -/
def tokRowW : ApiTokenRow :=
  { id := 1
    user_id := 1
    name := "bar"
    token := "bar"
    last_used_at := none
    revoked := false }

def tokRowRevokedW : ApiTokenRow :=
  { id := 2
    user_id := 1
    name := "old"
    token := "old"
    last_used_at := none
    revoked := true }

def sTokW : DbState := { s0W with users := [userA], api_tokens := [tokRowRevokedW, tokRowW] }

theorem find_by_api_token_spec_witness :
    User.find_by_api_token sTokW "old" = (.error CargoErr.NotFound, sTokW) ∧
    (User.find_by_api_token sTokW "bar" = (.ok userA, stampTokens sTokW "bar") ∧
      userA.id = tokRowW.user_id ∧
      ∀ r ∈ (stampTokens sTokW "bar").api_tokens, r.token = "bar" → r.revoked = false →
        r.last_used_at = some sTokW.now) :=
  ⟨(find_by_api_token_spec sTokW "old").1 (by decide),
   (find_by_api_token_spec sTokW "bar").2 tokRowW [] userA (by decide) (by decide)⟩

/-! ## C9: verified-contact query -/

/-- C9: `has_verified_email` answers `true` exactly when at least one
`Email` record of the user has its verified flag set, and it mutates
nothing: the state it hands back is the input state. -/
theorem has_verified_email_spec (self : User) (s : DbState) :
    ((User.has_verified_email self s).1 = true ↔
      ∃ e ∈ s.emails, e.user_id = self.id ∧ e.verified = true) ∧
    (User.has_verified_email self s).2 = s := by
  refine ⟨?_, rfl⟩
  unfold User.has_verified_email
  dsimp only
  rw [List.any_eq_true]
  constructor
  · rintro ⟨e, he, hp⟩
    refine ⟨e, he, ?_⟩
    simpa using hp
  · rintro ⟨e, he, h1, h2⟩
    exact ⟨e, he, by simp [h1, h2]⟩

/-- A store with a verified email record for the sample actor. -/
def sEmailW : DbState :=
  { s0W with emails := [{ user_id := 1, email := "a@x.com", token := "tk", verified := true }] }

theorem has_verified_email_spec_witness :
    (((User.has_verified_email userA sEmailW).1 = true ↔
      ∃ e ∈ sEmailW.emails, e.user_id = userA.id ∧ e.verified = true) ∧
    (User.has_verified_email userA sEmailW).2 = sEmailW) :=
  has_verified_email_spec userA sEmailW

/-! ## C10: `owning` returns only non-deleted user owners -/

/-- C10: every owner produced by `User::owning` is a `User` owner
backed by a non-deleted `crate_owners` row of the crate with
`owner_kind = User`; team owners never appear, so the produced owner list
is a homogeneous user list. -/
theorem owning_only_nondeleted_user_owners (krate : Crate) (s : DbState) :
    ∀ o ∈ User.owning krate s, ∃ u co, o = Owner.User u ∧ u ∈ s.users ∧
      co ∈ s.crate_owners ∧ co.crate_id = krate.id ∧ co.owner_id = u.id ∧
      co.deleted = false ∧ co.owner_kind = OwnerKind.User := by
  intro o ho
  unfold User.owning at ho
  rw [List.mem_filterMap] at ho
  obtain ⟨co, hco, hmap⟩ := ho
  rw [List.mem_filter] at hco
  obtain ⟨hco_mem, hco_pred⟩ := hco
  cases hfind : s.users.find? (fun u => u.id == co.owner_id) with
  | none => rw [hfind] at hmap; simp at hmap
  | some u =>
      rw [hfind] at hmap
      simp only [Option.map_some'] at hmap
      injection hmap with hmap
      have huid : u.id = co.owner_id := by simpa using List.find?_some hfind
      have hu_mem : u ∈ s.users := List.mem_of_find?_eq_some hfind
      simp only [Bool.and_eq_true, beq_iff_eq] at hco_pred
      obtain ⟨⟨hcrate, hdel⟩, hkind⟩ := hco_pred
      exact ⟨u, co, hmap.symm, hu_mem, hco_mem, hcrate, huid.symm, hdel, hkind⟩

/-- A crate with a team-kind owner row, a deleted user-kind owner row and
a live user-kind owner row. -/
def crateW : Crate := { id := 1 }

def coUserW : CrateOwner :=
  { crate_id := 1, owner_id := 1, deleted := false, owner_kind := OwnerKind.User }

def coTeamW : CrateOwner :=
  { crate_id := 1, owner_id := 7, deleted := false, owner_kind := OwnerKind.Team }

def coDeletedW : CrateOwner :=
  { crate_id := 1, owner_id := 2, deleted := true, owner_kind := OwnerKind.User }

def sOwnW : DbState :=
  { s0W with users := [userA, userB], crate_owners := [coTeamW, coDeletedW, coUserW] }

theorem owning_only_nondeleted_user_owners_witness :
    Owner.User userA ∈ User.owning crateW sOwnW ∧
    (∃ u co, Owner.User userA = Owner.User u ∧ u ∈ sOwnW.users ∧
      co ∈ sOwnW.crate_owners ∧ co.crate_id = crateW.id ∧ co.owner_id = u.id ∧
      co.deleted = false ∧ co.owner_kind = OwnerKind.User) :=
  ⟨by decide,
   owning_only_nondeleted_user_owners crateW sOwnW (Owner.User userA) (by decide)⟩
